import Mathlib

/-!
# Shallow embedding of the ruh-time-tracker core (src/backend.rs, src/history.rs)

The embedding follows the current revision of the source: `src/backend.rs`
(hierarchical `PContainer` tree, session state machine, persistence) and
`src/history.rs` (history ledger and day-bucketed reporting).

Modelling conventions:
* `Uuid` is modelled as `Nat`; freshly generated ids (`Uuid::new_v4`) are
  passed in as explicit parameters.
* `std::time::SystemTime` and `chrono::DateTime<Local>` are both modelled by
  the civil datetime `DT` below (one-second granularity); wall-clock reads
  (`SystemTime::now()`) are passed in as explicit `now` parameters.
* `HashMap<Uuid, T>` is modelled as an association list `List (Nat × T)`
  (lookup `findKV`, overwriting insert `insertKV`, in-place value update
  `updateKV`); iteration over `.values()` is iteration over `List.map Prod.snd`.
* `Arc<Mutex<T>>` leaves are stored inline in the owning container; the
  session's shared handle to the active `Subject` is modelled by the key path
  of the leaf in the tree, and a write through the handle is an in-place tree
  update at that path (unobservable if the leaf was removed, exactly as the
  orphaned `Arc` is unobservable through the tree and the queries modelled
  here).
* fallible `&mut` borrows (`get_current_mut`) return the looked-up value
  together with the (possibly self-healed) container; the key of the borrowed
  slot is returned alongside so that callers can write back through the
  borrow.
-/

namespace RuhTime

/-- Association-list lookup, modelling `HashMap::get`. -/
def findKV {α : Type} (k : Nat) : List (Nat × α) → Option α
  | [] => none
  | (k', v) :: rest => if k' = k then some v else findKV k rest

/-- Remove the binding of a key (helper for overwriting insert). -/
def eraseKV {α : Type} (k : Nat) : List (Nat × α) → List (Nat × α)
  | [] => []
  | (k', v) :: rest => if k' = k then eraseKV k rest else (k', v) :: eraseKV k rest

/-- `HashMap::insert`: adds the binding, overwriting an existing one. -/
def insertKV {α : Type} (k : Nat) (v : α) (l : List (Nat × α)) : List (Nat × α) :=
  (k, v) :: eraseKV k l

/-- In-place update of the value bound to a key (a write through
`HashMap::get_mut`); leaves the map unchanged when the key is absent. -/
def updateKV {α : Type} (k : Nat) (f : α → α) : List (Nat × α) → List (Nat × α)
  | [] => []
  | (k', v) :: rest => if k' = k then (k', f v) :: rest else (k', v) :: updateKV k f rest

/-- In-place update of a list element by position, modelling a write through
`Vec::get_mut(i)`; a no-op out of bounds (the code only indexes in bounds). -/
def modifyAt {α : Type} (l : List α) (i : Nat) (f : α → α) : List α :=
  match l, i with
  | [], _ => []
  | x :: xs, 0 => f x :: xs
  | x :: xs, i + 1 => x :: modifyAt xs i f

/-- Civil datetime at one-second granularity, modelling both
`chrono::DateTime<Local>` and `std::time::SystemTime`:
calendar date (`year`/`month`/`day`) plus the second of the day `sod`. -/
structure DT where
  year : Int
  month : Nat
  day : Nat
  sod : Nat
deriving DecidableEq

/-- Days since 1970-01-01 of a civil date (standard civil-calendar algorithm). -/
def daysFromCivil (y : Int) (m d : Nat) : Int :=
  let y' : Int := if m ≤ 2 then y - 1 else y
  let era : Int := Int.fdiv y' 400
  let yoe : Int := y' - era * 400
  let mp : Nat := if m ≤ 2 then m + 9 else m - 3
  let doy : Nat := (153 * mp + 2) / 5 + (d - 1)
  let doe : Int := yoe * 365 + Int.fdiv yoe 4 - Int.fdiv yoe 100 + (doy : Int)
  era * 146097 + doe - 719468

/-- Day index (days since epoch) of a datetime's calendar date. -/
def DT.dayIndex (t : DT) : Int :=
  daysFromCivil t.year t.month t.day

/-- Seconds since epoch; chronological comparison and subtraction of datetimes
go through this. -/
def DT.toSecs (t : DT) : Int :=
  t.dayIndex * 86400 + t.sod

/-- `Local.with_ymd_and_hms(y, m, d, h, mi, s)`. -/
def withYmdAndHms (y : Int) (m d h mi s : Nat) : DT :=
  ⟨y, m, d, h * 3600 + mi * 60 + s⟩

/-- `chrono::Duration::num_days` of a duration given in seconds: whole days,
truncated toward zero as in Rust integer division. -/
def numDaysI (secs : Int) : Int :=
  if 0 ≤ secs then ((secs.toNat / 86400 : Nat) : Int)
  else -(((-secs).toNat / 86400 : Nat) : Int)

/-- `HistoryRecord` of `src/history.rs` (note: the record of this revision
carries `project_id` and `subject_id`; it has no sub-project id field). -/
structure HistoryRecord where
  id : Nat
  start_date : DT
  end_date : DT
  project_id : Nat
  subject_id : Nat
deriving DecidableEq

/-- `HistoryRecord::get_duration`: `end_date.signed_duration_since(start_date)`,
in seconds. -/
def HistoryRecord.get_duration (r : HistoryRecord) : Int :=
  r.end_date.toSecs - r.start_date.toSecs

/-- The ordering used by `r.sort()` in `get_ordered_records`:
`HistoryRecord::cmp` compares `start_date`. -/
def recLE (a b : HistoryRecord) : Prop :=
  a.start_date.toSecs ≤ b.start_date.toSecs

instance : DecidableRel recLE := fun a b =>
  inferInstanceAs (Decidable (a.start_date.toSecs ≤ b.start_date.toSecs))

instance : IsTotal HistoryRecord recLE :=
  ⟨fun a b => Int.le_total a.start_date.toSecs b.start_date.toSecs⟩

instance : IsTrans HistoryRecord recLE :=
  ⟨fun _ _ _ hab hbc => le_trans hab hbc⟩

/-- `History` of `src/history.rs`: the append-only ledger. -/
structure History where
  records : List (Nat × HistoryRecord)
deriving DecidableEq

/-- `History::new`. -/
def History.new : History := ⟨[]⟩

/-- `History::update(id)`: sets `end_date = now` for the given record if it
still exists (`updateKV` leaves the map unchanged when `id` is absent,
matching the `if let Some(session) = self.records.get_mut(&id)` guard). -/
def History.update (h : History) (id : Nat) (now : DT) : History :=
  ⟨updateKV id (fun r => { r with end_date := now }) h.records⟩

/-- `History::add_record(project_id, subject_id)`: inserts a fresh record with
`start_date = end_date = now` under a freshly generated id and returns the id.
(The two adjacent `SystemTime::now()` calls of the source are modelled by the
single parameter `now`.  Note `src/backend.rs` passes a third, sub-project id
argument; the `src/history.rs` revision given accepts project and subject ids
only, and its record stores only those.) -/
def History.add_record (h : History) (freshId : Nat) (now : DT)
    (project_id subject_id : Nat) : History × Nat :=
  (⟨insertKV freshId
      { id := freshId, start_date := now, end_date := now
        project_id := project_id, subject_id := subject_id } h.records⟩,
   freshId)

/-- The range filter of `get_ordered_records`:
`v.start_date >= range.0 && v.start_date <= range.1`. -/
def inRange (lo hi : DT) (r : HistoryRecord) : Bool :=
  decide (lo.toSecs ≤ r.start_date.toSecs) && decide (r.start_date.toSecs ≤ hi.toSecs)

/-- First synthetic half of a day-spanning record: original `start_date`,
`end_date` clamped to 23:59:59 of the start day. -/
def firstHalf (r : HistoryRecord) : HistoryRecord :=
  { r with end_date :=
      withYmdAndHms r.start_date.year r.start_date.month r.start_date.day 23 59 59 }

/-- Second synthetic half of a day-spanning record: `start_date` moved to
00:00:00 of the calendar day of the original `end_date`, original `end_date`. -/
def secondHalf (r : HistoryRecord) : HistoryRecord :=
  { r with start_date :=
      withYmdAndHms r.end_date.year r.end_date.month r.end_date.day 0 0 0 }

/-- Bucket index of a record inside `get_ordered_records`:
`record.start_date.signed_duration_since(range.0).num_days() as usize`. -/
def bucketIndex (lo : DT) (r : HistoryRecord) : Nat :=
  (numDaysI (r.start_date.toSecs - lo.toSecs)).toNat

/-- One iteration of the distribution loop of `get_ordered_records`: push the
record (split in two when `start_date.day() != end_date.day()`) into its day
bucket(s); the second half is kept only when index `ind + 1` is in bounds
(`if let Some(vec) = res.get_mut(ind + 1)`). -/
def bucketStep (lo : DT) (res : List (List HistoryRecord)) (record : HistoryRecord) :
    List (List HistoryRecord) :=
  let ind := bucketIndex lo record
  if record.start_date.day ≠ record.end_date.day then
    let res1 := modifyAt res ind (fun v => v ++ [firstHalf record])
    if ind + 1 < res1.length then
      modifyAt res1 (ind + 1) (fun v => v ++ [secondHalf record])
    else res1
  else
    modifyAt res ind (fun v => v ++ [record])

/-- `History::get_ordered_records(date_range)`: one bucket per
`num_days(range.1 - range.0) + 1`; the in-range records, sorted ascending by
`start_date`, are distributed by `bucketStep`. -/
def History.get_ordered_records (h : History) (lo hi : DT) :
    List (List HistoryRecord) :=
  let number_of_days : Int := numDaysI (hi.toSecs - lo.toSecs) + 1
  let init : List (List HistoryRecord) := List.replicate number_of_days.toNat []
  let sorted :=
    List.insertionSort recLE ((h.records.map Prod.snd).filter (inRange lo hi))
  sorted.foldl (bucketStep lo) init

/-- The pieces of one distributed record that end up in bucket `i` of a
bucket vector of length `n` (the characterization of `bucketStep`). -/
def pieceAt (lo : DT) (n i : Nat) (r : HistoryRecord) : List HistoryRecord :=
  (if bucketIndex lo r = i then
    (if r.start_date.day ≠ r.end_date.day then [firstHalf r] else [r])
   else []) ++
  (if r.start_date.day ≠ r.end_date.day ∧ bucketIndex lo r + 1 = i ∧
      bucketIndex lo r + 1 < n then
    [secondHalf r]
   else [])

/-- `Subject` of `src/backend.rs` (leaf of the project tree);
`duration` is a `std::time::Duration`, modelled in whole seconds. -/
structure Subject where
  id : Nat
  name : String
  created_at : DT
  duration : Nat
  is_deleted : Bool
deriving DecidableEq

/-- `Subject::create`. -/
def Subject.create (freshId : Nat) (name : String) (createdAt : DT) : Subject :=
  { id := freshId, name := name, created_at := createdAt, duration := 0
    is_deleted := false }

/-- `TodoSubject` of `src/backend.rs` (leaf of the todo tree). -/
structure TodoSubject where
  id : Nat
  name : String
  created_at : DT
  is_deleted : Bool
  is_done : Bool
deriving DecidableEq

/-- `TodoSubject::create`. -/
def TodoSubject.create (freshId : Nat) (name : String) (createdAt : DT) : TodoSubject :=
  { id := freshId, name := name, created_at := createdAt, is_deleted := false
    is_done := false }

/-- `TodoSubject::toggle`. -/
def TodoSubject.toggle (s : TodoSubject) : TodoSubject :=
  { s with is_done := !s.is_done }

/-- `PContainer<T, Uuid>` of `src/backend.rs`: a keyed tree node with a
currently selected child. -/
structure PContainer (T : Type) where
  id : Nat
  name : String
  created_at : DT
  is_deleted : Bool
  color : Nat × Nat × Nat
  inner : List (Nat × T)
  current_inner_id : Option Nat
deriving DecidableEq

/-- `PContainer::new` (the freshly sampled id and color and the creation time
are passed in explicitly). -/
def PContainer.new (T : Type) (freshId : Nat) (name : String) (createdAt : DT)
    (color : Nat × Nat × Nat) : PContainer T :=
  { id := freshId, name := name, created_at := createdAt, is_deleted := false
    color := color, inner := [], current_inner_id := none }

/-- `PContainer::get_current_mut`: resolves `current_inner_id`; if the
referenced key no longer exists the reference is cleared (self-healing).
Returns the borrowed slot's key and value together with the (possibly healed)
container; the key lets callers write back through the `&mut` borrow. -/
def PContainer.get_current_mut {T : Type} (c : PContainer T) :
    Option (Nat × T) × PContainer T :=
  match c.current_inner_id with
  | some id =>
    match findKV id c.inner with
    | none => (none, { c with current_inner_id := none })
    | some pr => (some (id, pr), c)
  | none => (none, c)

/-- `PContainer::get_current`: resolves `current_inner_id` through the shared
reference; a stale reference yields `none` (and, taking `&self` only, the
container cannot be modified). -/
def PContainer.get_current {T : Type} (c : PContainer T) : Option T :=
  match c.current_inner_id with
  | some id => findKV id c.inner
  | none => none

/-- `PContainer::set_current`: a `Some` key not present in `children` leaves
the selection unchanged; otherwise the selection is assigned. -/
def PContainer.set_current {T : Type} (c : PContainer T) (key : Option Nat) :
    PContainer T :=
  match key with
  | some k => if (findKV k c.inner).isSome then { c with current_inner_id := some k } else c
  | none => { c with current_inner_id := none }

/-- Write a value back into the slot of a previously borrowed child
(the effect of mutating through the `&mut T` of `get_current_mut`). -/
def PContainer.setInner {T : Type} (c : PContainer T) (k : Nat) (v : T) : PContainer T :=
  { c with inner := updateKV k (fun _ => v) c.inner }

/-- `WorkingProgress` of `src/backend.rs`.  The `Arc<Mutex<Subject>>` handle is
modelled by the key path `(project key, sub-project key, subject key)` of the
shared leaf captured when the session started. -/
structure WorkingProgress where
  subject_path : Nat × Nat × Nat
  session_id : Nat
  previous_tick : DT
deriving DecidableEq

/-- `WorkingMode` of `src/backend.rs`. -/
inductive WorkingMode where
  | Idle : WorkingMode
  | InProgress : WorkingProgress → WorkingMode
deriving DecidableEq

/-- The session id of the current working mode, if any. -/
def WorkingMode.sessionId : WorkingMode → Option Nat
  | .Idle => none
  | .InProgress p => some p.session_id

/-- The `previous_tick` of the current working mode, if any. -/
def WorkingMode.prevTick : WorkingMode → Option DT
  | .Idle => none
  | .InProgress p => some p.previous_tick

/-- `Backend` of `src/backend.rs`.  `projects` is the three-level
`ProjectChain`, `todos` the `TodoChain`; `current_session_duration` is a
`std::time::Duration` in whole seconds. -/
structure Backend where
  projects : PContainer (PContainer (PContainer Subject))
  todos : PContainer (PContainer (PContainer TodoSubject))
  working_mode : WorkingMode
  dirty : Bool
  current_session_duration : Nat
  last_session_subject_id : Nat
  last_save : DT
  history : History
deriving DecidableEq

/-- `Backend::dirty()`. -/
def Backend.set_dirty (b : Backend) : Backend :=
  { b with dirty := true }

/-- `Backend::get_current_subject` (read-only chain resolution). -/
def Backend.get_current_subject (b : Backend) : Option Subject :=
  match b.projects.get_current with
  | some project =>
    match project.get_current with
    | some sub_project => sub_project.get_current
    | none => none
  | none => none

/-- `Backend::get_current_todo_subject` (read-only chain resolution). -/
def Backend.get_current_todo_subject (b : Backend) : Option TodoSubject :=
  match b.todos.get_current with
  | some project =>
    match project.get_current with
    | some sub_project => sub_project.get_current
    | none => none
  | none => none

/-- `Backend::get_project_time`: for a present project id, the fold of the
fold of all stored subjects' durations (no filtering of any kind); `none`
for an absent id. -/
def Backend.get_project_time (b : Backend) (key : Nat) : Option Nat :=
  match findKV key b.projects.inner with
  | some project =>
    some (project.inner.foldl
      (fun s inner => s + inner.2.inner.foldl (fun v iv => v + iv.2.duration) 0) 0)
  | none => none

/-- `Backend::add_project`. -/
def Backend.add_project (b : Backend) (freshId : Nat) (name : String)
    (createdAt : DT) (color : Nat × Nat × Nat) : Backend :=
  let project := PContainer.new (PContainer Subject) freshId name createdAt color
  ({ b with projects :=
      { b.projects with inner := insertKV project.id project b.projects.inner } }).set_dirty

/-- `Backend::add_sub_project`: a no-op (except for self-healing of the stale
current-project reference) when no current project resolves. -/
def Backend.add_sub_project (b : Backend) (freshId : Nat) (name : String)
    (createdAt : DT) (color : Nat × Nat × Nat) : Backend :=
  match b.projects.get_current_mut with
  | (none, projectsH) => { b with projects := projectsH }
  | (some (k1, project), _) =>
    let sub_project := PContainer.new Subject freshId name createdAt color
    let project' := { project with inner := insertKV sub_project.id sub_project project.inner }
    ({ b with projects := b.projects.setInner k1 project' }).set_dirty

/-- `Backend::add_subject`: a no-op (except for self-healing) when the current
project or current sub-project does not resolve. -/
def Backend.add_subject (b : Backend) (freshId : Nat) (name : String)
    (createdAt : DT) : Backend :=
  match b.projects.get_current_mut with
  | (none, projectsH) => { b with projects := projectsH }
  | (some (k1, project), _) =>
    match project.get_current_mut with
    | (none, projectH) => { b with projects := b.projects.setInner k1 projectH }
    | (some (k2, sub_project), _) =>
      let subject := Subject.create freshId name createdAt
      let sub_project' :=
        { sub_project with inner := insertKV subject.id subject sub_project.inner }
      ({ b with projects :=
          b.projects.setInner k1 (project.setInner k2 sub_project') }).set_dirty

/-- `Backend::add_todo_project`. -/
def Backend.add_todo_project (b : Backend) (freshId : Nat) (name : String)
    (createdAt : DT) (color : Nat × Nat × Nat) : Backend :=
  let project := PContainer.new (PContainer TodoSubject) freshId name createdAt color
  ({ b with todos :=
      { b.todos with inner := insertKV project.id project b.todos.inner } }).set_dirty

/-- `Backend::add_todo_sub_project`. -/
def Backend.add_todo_sub_project (b : Backend) (freshId : Nat) (name : String)
    (createdAt : DT) (color : Nat × Nat × Nat) : Backend :=
  match b.todos.get_current_mut with
  | (none, todosH) => { b with todos := todosH }
  | (some (k1, project), _) =>
    let sub_project := PContainer.new TodoSubject freshId name createdAt color
    let project' := { project with inner := insertKV sub_project.id sub_project project.inner }
    ({ b with todos := b.todos.setInner k1 project' }).set_dirty

/-- `Backend::add_todo_subject`. -/
def Backend.add_todo_subject (b : Backend) (freshId : Nat) (name : String)
    (createdAt : DT) : Backend :=
  match b.todos.get_current_mut with
  | (none, todosH) => { b with todos := todosH }
  | (some (k1, project), _) =>
    match project.get_current_mut with
    | (none, projectH) => { b with todos := b.todos.setInner k1 projectH }
    | (some (k2, sub_project), _) =>
      let subject := TodoSubject.create freshId name createdAt
      let sub_project' :=
        { sub_project with inner := insertKV subject.id subject sub_project.inner }
      ({ b with todos :=
          b.todos.setInner k1 (project.setInner k2 sub_project') }).set_dirty

/-- The toggle-done command of the UI (`src/frontend.rs`):
`subject.lock().unwrap().toggle(); self.backend.dirty();` — the todo leaf at
the given key path is toggled through its shared handle and the backend is
marked dirty. -/
def Backend.toggle_todo_subject (b : Backend) (p : Nat × Nat × Nat) : Backend :=
  let todos' :=
    { b.todos with inner := updateKV p.1 (fun proj =>
        { proj with inner := updateKV p.2.1 (fun sp =>
            { sp with inner := updateKV p.2.2 TodoSubject.toggle sp.inner }) proj.inner }) b.todos.inner }
  ({ b with todos := todos' }).set_dirty

/-- `Backend::start_subject`: resolves the Project → Sub-project → Subject
chain through `get_current_mut` (early return, with self-healing write-back,
on any unresolved link); on success applies the session-continuity reset,
records the subject id, opens a history record and transitions to
`InProgress`.  (This revision of `src/backend.rs` passes
`(project_id, sub_project_id, subject_id)` to `History::add_record`, whose
given revision accepts the project and subject ids; the sub-project id has no
slot in the stored record.) -/
def Backend.start_subject (b : Backend) (freshRecordId : Nat) (now : DT) : Backend :=
  match b.projects.get_current_mut with
  | (none, projectsH) => { b with projects := projectsH }
  | (some (k1, project), _) =>
    let project_id := project.id
    match project.get_current_mut with
    | (none, projectH) => { b with projects := b.projects.setInner k1 projectH }
    | (some (k2, sub_project), _) =>
      let _sub_project_id := sub_project.id
      match sub_project.get_current_mut with
      | (none, sub_projectH) =>
        { b with projects := b.projects.setInner k1 (project.setInner k2 sub_projectH) }
      | (some (k3, subject), _) =>
        let subject_id := subject.id
        let b1 := if b.last_session_subject_id ≠ subject_id then
            { b with current_session_duration := 0 }
          else b
        let b2 := { b1 with last_session_subject_id := subject_id }
        let hr := b2.history.add_record freshRecordId now project_id subject_id
        { b2 with
          history := hr.1,
          working_mode := WorkingMode.InProgress
            { subject_path := (k1, k2, k3), session_id := hr.2, previous_tick := now } }

/-- `Backend::stop_subject(force)`. -/
def Backend.stop_subject (b : Backend) (force : Bool) : Backend :=
  let b1 := { b with working_mode := .Idle }
  if force then
    { b1 with current_session_duration := 0 }
  else
    match b1.get_current_subject with
    | some subject =>
      if b1.last_session_subject_id ≠ subject.id then
        { b1 with current_session_duration := 0 }
      else b1
    | none => b1

/-- Write through the session's shared `Subject` handle: in-place update of
the leaf at the captured key path (unobservable if the leaf was removed). -/
def Backend.updateSubjectAt (b : Backend) (p : Nat × Nat × Nat)
    (f : Subject → Subject) : Backend :=
  let projects' :=
    { b.projects with inner := updateKV p.1 (fun proj =>
        { proj with inner := updateKV p.2.1 (fun sp =>
            { sp with inner := updateKV p.2.2 f sp.inner }) proj.inner }) b.projects.inner }
  { b with projects := projects' }

/-- The accrual stage of `Backend::update_time` (everything before the
persistence decisions): if `InProgress`, advance `previous_tick`, add the
elapsed time to `current_session_duration` and to the active subject's
`duration`, and extend the open history record.  `duration_since(..).unwrap()`
panics when the clock went backwards; the model totalizes it by clamping at
zero (`Int.toNat`). -/
def Backend.accrue (b : Backend) (now : DT) : Backend :=
  match b.working_mode with
  | .InProgress progress =>
    let duration := (now.toSecs - progress.previous_tick.toSecs).toNat
    let b1 := { b with
      working_mode := WorkingMode.InProgress { progress with previous_tick := now },
      current_session_duration := b.current_session_duration + duration }
    let b2 := b1.updateSubjectAt progress.subject_path
      (fun s => { s with duration := s.duration + duration })
    { b2 with history := b2.history.update progress.session_id now }
  | .Idle => b

/-- The persisted projection of the backend (`#[serde(skip)]` drops
`working_mode` and `dirty`; everything else is written to `data.ron`). -/
structure Persisted where
  projects : PContainer (PContainer (PContainer Subject))
  todos : PContainer (PContainer (PContainer TodoSubject))
  current_session_duration : Nat
  last_session_subject_id : Nat
  last_save : DT
  history : History
deriving DecidableEq

/-- The serialization performed by `Backend::dump`. -/
def Backend.persisted (b : Backend) : Persisted :=
  { projects := b.projects, todos := b.todos
    current_session_duration := b.current_session_duration
    last_session_subject_id := b.last_session_subject_id
    last_save := b.last_save, history := b.history }

/-- The backend together with the contents of `./data.ron`. -/
structure World where
  backend : Backend
  file : Option Persisted
deriving DecidableEq

/-- `Backend::dump`: serializes the current state to the file (the state as it
is, before the bookkeeping writes), then sets `last_save = now` and clears the
dirty flag. -/
def World.dump (w : World) (now : DT) : World :=
  { backend := { w.backend with last_save := now, dirty := false }
    file := some w.backend.persisted }

/-- `Backend::update_time`: the per-frame tick.  After accrual, a flush is
triggered inside the `InProgress` branch when more than 10 seconds elapsed
since `last_save`, and — independently of the working mode — whenever the
dirty flag is set. -/
def World.update_time (w : World) (now : DT) : World :=
  let b1 := w.backend.accrue now
  let w1 : World := { w with backend := b1 }
  let w2 :=
    match b1.working_mode with
    | .InProgress _ =>
      if 10 < now.toSecs - b1.last_save.toSecs then w1.dump now else w1
    | .Idle => w1
  if w2.backend.dirty then w2.dump now else w2

/-- The states of the history ledger reachable through its mutating interface
(`History::new`, `History::add_record` with a fresh id, `History::update`)
under a monotone wall clock; the clock index bounds every timestamp handed to
the ledger so far. -/
inductive History.Reachable : DT → History → Prop where
  | init (t : DT) : History.Reachable t History.new
  | add (t t' : DT) (h : History) (freshId project_id subject_id : Nat) :
      History.Reachable t h → t.toSecs ≤ t'.toSecs →
      findKV freshId h.records = none →
      History.Reachable t' (h.add_record freshId t' project_id subject_id).1
  | update (t t' : DT) (h : History) (id : Nat) :
      History.Reachable t h → t.toSecs ≤ t'.toSecs →
      History.Reachable t' (h.update id t')

/-- Records whose timestamps are civil-valid (second of day in range) and that
span at most one midnight: either both dates fall on the same calendar day, or
the end date is the calendar day immediately after the start date.  (Sessions
extended once per UI frame produce such records.) -/
def WellFormedRecord (r : HistoryRecord) : Prop :=
  r.start_date.sod < 86400 ∧ r.end_date.sod < 86400 ∧
  ((r.start_date.day = r.end_date.day ∧ r.end_date.dayIndex = r.start_date.dayIndex) ∨
   (r.start_date.day ≠ r.end_date.day ∧ r.end_date.dayIndex = r.start_date.dayIndex + 1))

instance (r : HistoryRecord) : Decidable (WellFormedRecord r) := by
  unfold WellFormedRecord; infer_instance

/-- Aggregation over a project as the spec describes it: the sum of the
durations of the descendant subjects, with soft-deleted sub-projects and
subjects (`is_deleted = true`) excluded. -/
def specProjectTimeExcludingDeleted (b : Backend) (key : Nat) : Option Nat :=
  match findKV key b.projects.inner with
  | some project =>
    some (((((project.inner.map Prod.snd).filter (fun sp => !sp.is_deleted)).flatMap
        (fun sp => sp.inner.map Prod.snd)).filter
          (fun s => !s.is_deleted)).map Subject.duration).sum
  | none => none

/-- Total duration stored under a project: the durations of all descendant
subjects, deleted or not. -/
def projectTotalDuration (project : PContainer (PContainer Subject)) : Nat :=
  (((project.inner.map Prod.snd).flatMap (fun sp => sp.inner.map Prod.snd)).map
    Subject.duration).sum

/- Concrete states used to instantiate the theorems below. -/

/-- 2024-01-01 00:00:00. -/
def dt0 : DT := ⟨2024, 1, 1, 0⟩

/-- 2024-01-01 00:00:30. -/
def dt1 : DT := ⟨2024, 1, 1, 30⟩

def subjEx : Subject :=
  { id := 3, name := "feature-x", created_at := dt0, duration := 0, is_deleted := false }

def subPEx : PContainer Subject :=
  { id := 2, name := "coding", created_at := dt0, is_deleted := false, color := (0, 0, 0)
    inner := [(3, subjEx)], current_inner_id := some 3 }

def projEx : PContainer (PContainer Subject) :=
  { id := 1, name := "work", created_at := dt0, is_deleted := false, color := (0, 0, 0)
    inner := [(2, subPEx)], current_inner_id := some 2 }

def projectsEx : PContainer (PContainer (PContainer Subject)) :=
  { id := 0, name := "root", created_at := dt0, is_deleted := false, color := (0, 0, 0)
    inner := [(1, projEx)], current_inner_id := some 1 }

def tsubjEx : TodoSubject :=
  { id := 6, name := "todo", created_at := dt0, is_deleted := false, is_done := false }

def tsubPEx : PContainer TodoSubject :=
  { id := 5, name := "t-sub", created_at := dt0, is_deleted := false, color := (0, 0, 0)
    inner := [(6, tsubjEx)], current_inner_id := some 6 }

def tprojEx : PContainer (PContainer TodoSubject) :=
  { id := 4, name := "t-proj", created_at := dt0, is_deleted := false, color := (0, 0, 0)
    inner := [(5, tsubPEx)], current_inner_id := some 5 }

def todosEx : PContainer (PContainer (PContainer TodoSubject)) :=
  { id := 0, name := "root", created_at := dt0, is_deleted := false, color := (0, 0, 0)
    inner := [(4, tprojEx)], current_inner_id := some 4 }

def bEx : Backend :=
  { projects := projectsEx, todos := todosEx, working_mode := WorkingMode.Idle
    dirty := false, current_session_duration := 7, last_session_subject_id := 9
    last_save := dt0, history := History.new }

def wEx : World := { backend := bEx.set_dirty, file := none }

def bInProgEx : Backend :=
  { bEx with
    working_mode := WorkingMode.InProgress
      { subject_path := (1, 2, 3), session_id := 50, previous_tick := dt0 }
    history := (History.new.add_record 50 dt0 1 3).1 }

def bEmptyEx : Backend :=
  { bEx with projects := { projectsEx with current_inner_id := none } }

def cStale : PContainer Subject :=
  { id := 0, name := "c", created_at := dt0, is_deleted := false, color := (0, 0, 0)
    inner := [], current_inner_id := some 5 }

def subjDel : Subject :=
  { id := 3, name := "s", created_at := dt0, duration := 5, is_deleted := true }

def bC9 : Backend :=
  { bEx with projects :=
      { projectsEx with inner :=
          [(1, { projEx with inner := [(2, { subPEx with inner := [(3, subjDel)] })] })] } }

/-- Range start 2024-01-01 12:00:00 (not midnight-aligned). -/
def loA : DT := ⟨2024, 1, 1, 12 * 3600⟩

/-- Range end 2024-01-02 06:00:00. -/
def hiA : DT := ⟨2024, 1, 2, 6 * 3600⟩

/-- Range end 2024-01-03 12:00:00. -/
def hiB : DT := ⟨2024, 1, 3, 12 * 3600⟩

/-- 2024-01-02 01:00 → 2024-01-03 00:30: crosses midnight. -/
def rSpan : HistoryRecord :=
  { id := 1, start_date := ⟨2024, 1, 2, 3600⟩, end_date := ⟨2024, 1, 3, 1800⟩
    project_id := 0, subject_id := 0 }

/-- 2024-01-02 11:00 → 11:01. -/
def rMorning : HistoryRecord :=
  { id := 2, start_date := ⟨2024, 1, 2, 11 * 3600⟩, end_date := ⟨2024, 1, 2, 11 * 3600 + 60⟩
    project_id := 0, subject_id := 0 }

/-- 2024-01-02 13:00 → 14:00. -/
def rAfternoon : HistoryRecord :=
  { id := 3, start_date := ⟨2024, 1, 2, 13 * 3600⟩, end_date := ⟨2024, 1, 2, 14 * 3600⟩
    project_id := 0, subject_id := 0 }

def hC3 : History := ⟨[(1, rSpan), (2, rMorning), (3, rAfternoon)]⟩

/-- 2024-01-01 23:50 → 2024-01-02 00:10: crosses midnight. -/
def rWit : HistoryRecord :=
  { id := 1, start_date := ⟨2024, 1, 1, 23 * 3600 + 50 * 60⟩, end_date := ⟨2024, 1, 2, 600⟩
    project_id := 0, subject_id := 0 }

def hWit : History := ⟨[(1, rWit)]⟩

/-- Range end 2024-01-02 01:00:00. -/
def hiW : DT := ⟨2024, 1, 2, 3600⟩

/-- The record produced by `History.new.add_record 1 dt0 10 20`. -/
def recW : HistoryRecord :=
  { id := 1, start_date := dt0, end_date := dt0, project_id := 10, subject_id := 20 }

/- Helper lemmas about the association-list operations. -/

theorem findKV_eraseKV_ne {α : Type} (k k' : Nat) (l : List (Nat × α)) (h : k' ≠ k) :
    findKV k' (eraseKV k l) = findKV k' l := by
  induction l with
  | nil => rfl
  | cons p rest ih =>
    obtain ⟨pk, pv⟩ := p
    by_cases hp : pk = k
    · subst hp
      have hne : ¬ pk = k' := fun he => h he.symm
      simp [eraseKV, findKV, ih, hne]
    · by_cases hq : pk = k'
      · simp [eraseKV, findKV, hp, hq, h]
      · simp [eraseKV, findKV, hp, hq, ih]

theorem findKV_insertKV_self {α : Type} (k : Nat) (v : α) (l : List (Nat × α)) :
    findKV k (insertKV k v l) = some v := by
  simp [insertKV, findKV]

theorem findKV_insertKV_ne {α : Type} (k k' : Nat) (v : α) (l : List (Nat × α))
    (h : k' ≠ k) : findKV k' (insertKV k v l) = findKV k' l := by
  have hne : ¬ (k = k') := fun he => h he.symm
  simp [insertKV, findKV, hne, findKV_eraseKV_ne k k' l h]

theorem findKV_updateKV {α : Type} (k k' : Nat) (f : α → α) (l : List (Nat × α)) :
    findKV k' (updateKV k f l) =
      if k' = k then (findKV k l).map f else findKV k' l := by
  induction l with
  | nil => simp [updateKV, findKV]
  | cons p rest ih =>
    obtain ⟨pk, pv⟩ := p
    by_cases hp : pk = k
    · subst hp
      by_cases hk : k' = pk
      · subst hk
        simp [updateKV, findKV]
      · have hne : ¬ pk = k' := fun he => hk he.symm
        simp [updateKV, findKV, hk, hne]
    · by_cases hq : pk = k'
      · subst hq
        have hne : ¬ (pk = k) := hp
        simp [updateKV, findKV, hne]
      · simp [updateKV, findKV, hp, hq, ih]

theorem updateKV_of_not_mem {α : Type} (k : Nat) (f : α → α) (l : List (Nat × α))
    (h : findKV k l = none) : updateKV k f l = l := by
  induction l with
  | nil => rfl
  | cons p rest ih =>
    by_cases hp : p.1 = k
    · simp [findKV, hp] at h
    · simp only [findKV, if_neg hp] at h
      simp [updateKV, if_neg hp, ih h]

/- Helper lemmas relating the two chain-resolution paths. -/

theorem get_current_mut_of_get_current {T : Type} (c : PContainer T) (v : T)
    (h : c.get_current = some v) :
    ∃ k, c.current_inner_id = some k ∧ findKV k c.inner = some v ∧
      c.get_current_mut = (some (k, v), c) := by
  cases hc : c.current_inner_id with
  | none => simp [PContainer.get_current, hc] at h
  | some k =>
    have hv : findKV k c.inner = some v := by
      simpa [PContainer.get_current, hc] using h
    exact ⟨k, rfl, hv, by simp [PContainer.get_current_mut, hc, hv]⟩

theorem get_current_of_get_current_mut {T : Type} (c : PContainer T) (k : Nat) (v : T)
    (c' : PContainer T) (h : c.get_current_mut = (some (k, v), c')) :
    c.get_current = some v := by
  cases hc : c.current_inner_id with
  | none => simp [PContainer.get_current_mut, hc] at h
  | some k0 =>
    cases hf : findKV k0 c.inner with
    | none => simp [PContainer.get_current_mut, hc, hf] at h
    | some pr =>
      simp only [PContainer.get_current_mut, hc, hf] at h
      have h1 : (some (k0, pr) : Option (Nat × T)) = some (k, v) := congrArg Prod.fst h
      have h2 : (k0, pr) = (k, v) := Option.some.inj h1
      have hv : pr = v := congrArg Prod.snd h2
      simp [PContainer.get_current, hc, hf, hv]

/-- C1: with a fully resolved Project → Sub-project → Subject chain,
`start_subject` resets `current_session_duration` to zero exactly when the
resolved subject's id differs from `last_session_subject_id` (leaving it
unchanged when they coincide), and then records the resolved id in
`last_session_subject_id`. -/
theorem start_subject_session_continuity (b : Backend) (freshRecordId : Nat) (now : DT)
    (subj : Subject) (h : b.get_current_subject = some subj) :
    (b.start_subject freshRecordId now).last_session_subject_id = subj.id ∧
    (b.start_subject freshRecordId now).current_session_duration =
      (if b.last_session_subject_id = subj.id then b.current_session_duration else 0) := by
  cases hp : b.projects.get_current with
  | none => simp [Backend.get_current_subject, hp] at h
  | some project =>
    cases hsp : project.get_current with
    | none => simp [Backend.get_current_subject, hp, hsp] at h
    | some sub_project =>
      have hs : sub_project.get_current = some subj := by
        simpa [Backend.get_current_subject, hp, hsp] using h
      obtain ⟨k1, hk1, hf1, hm1⟩ := get_current_mut_of_get_current _ _ hp
      obtain ⟨k2, hk2, hf2, hm2⟩ := get_current_mut_of_get_current _ _ hsp
      obtain ⟨k3, hk3, hf3, hm3⟩ := get_current_mut_of_get_current _ _ hs
      simp only [Backend.start_subject, hm1, hm2, hm3]
      by_cases hid : b.last_session_subject_id = subj.id
      · simp [hid]
      · simp [hid]

/-- C1 witness: starting the example chain's subject (id 3) from a state whose
`last_session_subject_id` is 9 resets the session duration and records id 3. -/
theorem start_subject_session_continuity_witness :
    (bEx.start_subject 100 dt0).last_session_subject_id = 3 ∧
    (bEx.start_subject 100 dt0).current_session_duration = 0 := by
  have h := start_subject_session_continuity bEx 100 dt0 subjEx (by rfl)
  have h9 : bEx.last_session_subject_id = 9 := rfl
  have h3 : subjEx.id = 3 := rfl
  refine ⟨h3 ▸ h.1, ?_⟩
  rw [h.2, if_neg (by rw [h9, h3]; omega)]

/-- C4: `stop_subject(force)` always transitions to `Idle`; it resets
`current_session_duration` to zero when `force` is set, and otherwise only
when a current subject resolves and its id differs from
`last_session_subject_id`; in every other case the duration is unchanged. -/
theorem stop_subject_idle_and_reset (b : Backend) (force : Bool) :
    (b.stop_subject force).working_mode = WorkingMode.Idle ∧
    (b.stop_subject force).current_session_duration =
      (if force then 0
       else
         match b.get_current_subject with
         | some subject =>
           if b.last_session_subject_id ≠ subject.id then 0
           else b.current_session_duration
         | none => b.current_session_duration) := by
  have hsame : Backend.get_current_subject { b with working_mode := WorkingMode.Idle } =
      b.get_current_subject := rfl
  cases force with
  | true => simp [Backend.stop_subject]
  | false =>
    simp only [Backend.stop_subject, if_false, Bool.false_eq_true, hsame]
    cases hcs : b.get_current_subject with
    | none => simp [hcs, hsame]
    | some subject =>
      by_cases hid : b.last_session_subject_id ≠ subject.id
      · simp [hcs, hid, hsame]
      · simp [hcs, hid, hsame]

/-- C6: when the current Project → Sub-project → Subject chain does not fully
resolve, `start_subject` leaves the working mode (hence `Idle` stays `Idle`),
the history ledger, `current_session_duration` and `last_session_subject_id`
untouched. -/
theorem start_subject_unresolved_noop (b : Backend) (freshRecordId : Nat) (now : DT)
    (h : b.get_current_subject = none) :
    (b.start_subject freshRecordId now).working_mode = b.working_mode ∧
    (b.start_subject freshRecordId now).history = b.history ∧
    (b.start_subject freshRecordId now).current_session_duration =
      b.current_session_duration ∧
    (b.start_subject freshRecordId now).last_session_subject_id =
      b.last_session_subject_id := by
  unfold Backend.start_subject
  split
  next projectsH heq => exact ⟨rfl, rfl, rfl, rfl⟩
  next k1 project snd1 heq =>
    split
    next projectH heq2 => exact ⟨rfl, rfl, rfl, rfl⟩
    next k2 sub_project snd2 heq2 =>
      split
      next sub_projectH heq3 => exact ⟨rfl, rfl, rfl, rfl⟩
      next k3 subject snd3 heq3 =>
        have hp := get_current_of_get_current_mut _ _ _ _ heq
        have hsp := get_current_of_get_current_mut _ _ _ _ heq2
        have hs := get_current_of_get_current_mut _ _ _ _ heq3
        simp [Backend.get_current_subject, hp, hsp, hs] at h

/-- C6 witness: with the current-project selection cleared, `start_subject` is
observationally a no-op on mode, history and session bookkeeping. -/
theorem start_subject_unresolved_noop_witness :
    (bEmptyEx.start_subject 100 dt0).working_mode = bEmptyEx.working_mode ∧
    (bEmptyEx.start_subject 100 dt0).history = bEmptyEx.history ∧
    (bEmptyEx.start_subject 100 dt0).current_session_duration =
      bEmptyEx.current_session_duration ∧
    (bEmptyEx.start_subject 100 dt0).last_session_subject_id =
      bEmptyEx.last_session_subject_id :=
  start_subject_unresolved_noop bEmptyEx 100 dt0 (by rfl)

/-- C7 counterexample: a container whose `current_inner_id` references the
absent key 5.  `get_current` (the shared-reference lookup) returns nothing but
does NOT clear the reference: after the lookup `current_inner_id` still reads
`some 5`, contradicting the claim that both lookups clear it to `None`. -/
theorem get_current_stale_counterexample :
    cStale.get_current = none ∧
    cStale.current_inner_id = some 5 ∧ some 5 ≠ (none : Option Nat) := by
  refine ⟨rfl, rfl, by simp⟩

/-- C7 (amended): on a stale `current_inner_id`, `get_current_mut` returns
nothing and clears the reference to `None`, while `get_current` returns
nothing but — taking only a shared reference — leaves the container, and so
`current_inner_id`, unchanged. -/
theorem get_current_self_healing {T : Type} (c : PContainer T) (k : Nat)
    (hk : c.current_inner_id = some k) (hmiss : findKV k c.inner = none) :
    c.get_current = none ∧
    (c.get_current_mut).1 = none ∧
    (c.get_current_mut).2.current_inner_id = none := by
  refine ⟨?_, ?_, ?_⟩ <;> simp [PContainer.get_current, PContainer.get_current_mut, hk, hmiss]

/-- C7 witness: the stale example container, healed by `get_current_mut`. -/
theorem get_current_self_healing_witness :
    cStale.get_current = none ∧
    (cStale.get_current_mut).1 = none ∧
    (cStale.get_current_mut).2.current_inner_id = none :=
  get_current_self_healing cStale 5 (by rfl) (by rfl)

/-- C9 counterexample: a project whose only descendant subject is soft-deleted
(`is_deleted = true`) with duration 5.  `get_project_time` returns 5 — it sums
every stored subject — while the aggregation described by the claim (deleted
nodes excluded) yields 0. -/
theorem get_project_time_counterexample :
    bC9.get_project_time 1 = some 5 ∧
    specProjectTimeExcludingDeleted bC9 1 = some 0 ∧
    subjDel.is_deleted = true ∧
    some 5 ≠ some 0 := by
  refine ⟨rfl, rfl, rfl, by simp⟩

/-- C9 (amended): for a present project id, `get_project_time` returns the sum
of the durations of ALL descendant subjects — soft-deleted ones included — and
`none` for an absent id. -/
theorem get_project_time_total (b : Backend) (key : Nat) :
    b.get_project_time key =
      (findKV key b.projects.inner).map projectTotalDuration := by
  cases hf : findKV key b.projects.inner with
  | none => simp [Backend.get_project_time, hf]
  | some project =>
    simp only [Backend.get_project_time, hf, Option.map_some]
    refine congrArg some ?_
    unfold projectTotalDuration
    have foldl_add_sum : ∀ {β : Type} (g : β → Nat) (l : List β) (a : Nat),
        l.foldl (fun s x => s + g x) a = a + (l.map g).sum := by
      intro β g l
      induction l with
      | nil => intro a; simp
      | cons x xs ih => intro a; simp [ih, Nat.add_assoc]
    have main : ∀ (l : List (Nat × PContainer Subject)) (a : Nat),
        l.foldl (fun s inner => s + inner.2.inner.foldl (fun v iv => v + iv.2.duration) 0) a =
          a + (((l.map Prod.snd).flatMap (fun sp => sp.inner.map Prod.snd)).map
                Subject.duration).sum := by
      intro l
      induction l with
      | nil => intro a; simp
      | cons x xs ih =>
        intro a
        rw [List.foldl_cons, ih, foldl_add_sum (fun iv => iv.2.duration) x.2.inner 0]
        simp [List.map_map, Function.comp, Nat.add_assoc]
        rfl
    rw [main project.inner 0]
    exact Nat.zero_add _

/- Helper lemmas for the session/persistence and ledger claims. -/

theorem chain_of_get_current_subject (b : Backend) (subj : Subject)
    (h : b.get_current_subject = some subj) :
    ∃ project sub_project, b.projects.get_current = some project ∧
      project.get_current = some sub_project ∧ sub_project.get_current = some subj := by
  cases hp : b.projects.get_current with
  | none => simp [Backend.get_current_subject, hp] at h
  | some project =>
    cases hsp : project.get_current with
    | none => simp [Backend.get_current_subject, hp, hsp] at h
    | some sub_project =>
      exact ⟨project, sub_project, rfl, hsp,
        by simpa [Backend.get_current_subject, hp, hsp] using h⟩

theorem chain_of_get_current_todo_subject (b : Backend) (tsubj : TodoSubject)
    (h : b.get_current_todo_subject = some tsubj) :
    ∃ project sub_project, b.todos.get_current = some project ∧
      project.get_current = some sub_project ∧ sub_project.get_current = some tsubj := by
  cases hp : b.todos.get_current with
  | none => simp [Backend.get_current_todo_subject, hp] at h
  | some project =>
    cases hsp : project.get_current with
    | none => simp [Backend.get_current_todo_subject, hp, hsp] at h
    | some sub_project =>
      exact ⟨project, sub_project, rfl, hsp,
        by simpa [Backend.get_current_todo_subject, hp, hsp] using h⟩

theorem accrue_dirty (b : Backend) (now : DT) : (b.accrue now).dirty = b.dirty := by
  unfold Backend.accrue
  split <;> rfl

theorem tick_flushes_dirty (w : World) (now : DT) (hd : w.backend.dirty = true) :
    (w.update_time now).backend.dirty = false ∧
    (w.update_time now).file = some (w.backend.accrue now).persisted := by
  have hacc : (w.backend.accrue now).dirty = true := by
    rw [accrue_dirty]; exact hd
  unfold World.update_time
  dsimp only
  cases hwm : (w.backend.accrue now).working_mode with
  | Idle =>
    simp only [hwm]
    rw [if_pos hacc]
    exact ⟨rfl, rfl⟩
  | InProgress p =>
    simp only [hwm]
    by_cases hth : 10 < now.toSecs - (w.backend.accrue now).last_save.toSecs
    · rw [if_pos hth]
      simp [World.dump]
    · rw [if_neg hth]
      rw [if_pos hacc]
      exact ⟨rfl, rfl⟩

theorem reachable_dates_bounded (t : DT) (h : History) (hr : History.Reachable t h) :
    ∀ id r, findKV id h.records = some r →
      r.start_date.toSecs ≤ r.end_date.toSecs ∧ r.end_date.toSecs ≤ t.toSecs := by
  induction hr with
  | init t =>
    intro id r hfind
    simp [History.new, findKV] at hfind
  | add t t' h fid pid sid hreach hle hfresh ih =>
    intro id r hfind
    by_cases hid : id = fid
    · subst hid
      simp only [History.add_record] at hfind
      rw [findKV_insertKV_self] at hfind
      obtain rfl := (Option.some.inj hfind).symm
      exact ⟨le_refl _, le_refl _⟩
    · simp only [History.add_record] at hfind
      rw [findKV_insertKV_ne _ _ _ _ hid] at hfind
      obtain ⟨h1, h2⟩ := ih id r hfind
      exact ⟨h1, le_trans h2 hle⟩
  | update t t' h uid hreach hle ih =>
    intro id r hfind
    simp only [History.update] at hfind
    rw [findKV_updateKV] at hfind
    by_cases hid : id = uid
    · rw [if_pos hid] at hfind
      cases hfound : findKV uid h.records with
      | none => rw [hfound] at hfind; cases hfind
      | some r0 =>
        rw [hfound] at hfind
        obtain ⟨hs0, he0⟩ := ih uid r0 hfound
        obtain rfl := (Option.some.inj hfind).symm
        exact ⟨le_trans hs0 (le_trans he0 hle), le_refl _⟩
    · rw [if_neg hid] at hfind
      obtain ⟨h1, h2⟩ := ih id r hfind
      exact ⟨h1, le_trans h2 hle⟩

/-- C8: over every reachable ledger state, `end_date ≥ start_date` holds for
every record; `update` is a no-op for a stale id, and for a live one advances
only `end_date` of exactly that record (ids, `start_date`, `project_id` and
`subject_id` are untouched, and no record disappears); `add_record` creates a
record with `start_date = end_date = now` and leaves every other record
untouched. -/
theorem history_ledger_invariant (t : DT) (h : History) (hr : History.Reachable t h) :
    (∀ id r, findKV id h.records = some r →
        r.start_date.toSecs ≤ r.end_date.toSecs) ∧
    (∀ id now, findKV id h.records = none → h.update id now = h) ∧
    (∀ id now id' r, findKV id' h.records = some r →
        findKV id' (h.update id now).records =
          some (if id' = id then { r with end_date := now } else r)) ∧
    (∀ freshId now pid sid,
        findKV freshId ((h.add_record freshId now pid sid).1).records =
          some { id := freshId, start_date := now, end_date := now,
                 project_id := pid, subject_id := sid } ∧
        (∀ id' r, id' ≠ freshId → findKV id' h.records = some r →
            findKV id' ((h.add_record freshId now pid sid).1).records = some r)) := by
  refine ⟨fun id r hf => (reachable_dates_bounded t h hr id r hf).1, ?_, ?_, ?_⟩
  · intro id now hmiss
    unfold History.update
    rw [updateKV_of_not_mem _ _ _ hmiss]
  · intro id now id' r hfind
    simp only [History.update]
    rw [findKV_updateKV]
    by_cases hid : id' = id
    · rw [if_pos hid, if_pos hid]
      subst hid
      rw [hfind]
      rfl
    · rw [if_neg hid, if_neg hid]
      exact hfind
  · intro freshId now pid sid
    constructor
    · simp only [History.add_record]
      exact findKV_insertKV_self _ _ _
    · intro id' r hne hfind
      simp only [History.add_record]
      rw [findKV_insertKV_ne _ _ _ _ hne]
      exact hfind

/-- C8 witness: the ledger reached by one `add_record` call satisfies the
date invariant on its single record. -/
theorem history_ledger_invariant_witness :
    recW.start_date.toSecs ≤ recW.end_date.toSecs := by
  have hreach : History.Reachable dt0 ((History.new.add_record 1 dt0 10 20).1) :=
    History.Reachable.add dt0 dt0 History.new 1 10 20 (History.Reachable.init dt0)
      (le_refl _) rfl
  have h := history_ledger_invariant dt0 _ hreach
  exact h.1 1 recW (by rfl)

/-- C10: from an `InProgress` state with a fully resolved chain,
`start_subject` replaces the session without accruing the pending interval:
the project tree (hence every subject's duration) and all existing history
records are untouched, the only addition being the fresh record, created with
`start_date = end_date = now` (zero duration), and the new session holds the
fresh record id with `previous_tick = now`. -/
theorem start_subject_frame (b : Backend) (freshRecordId : Nat) (now : DT)
    (prog : WorkingProgress) (project : PContainer (PContainer Subject))
    (sub_project : PContainer Subject) (subj : Subject)
    (_hmode : b.working_mode = WorkingMode.InProgress prog)
    (hp : b.projects.get_current = some project)
    (hsp : project.get_current = some sub_project)
    (hs : sub_project.get_current = some subj)
    (hfresh : findKV freshRecordId b.history.records = none) :
    (b.start_subject freshRecordId now).projects = b.projects ∧
    (b.start_subject freshRecordId now).todos = b.todos ∧
    (∀ id r, findKV id b.history.records = some r →
        findKV id (b.start_subject freshRecordId now).history.records = some r) ∧
    findKV freshRecordId (b.start_subject freshRecordId now).history.records =
      some { id := freshRecordId, start_date := now, end_date := now,
             project_id := project.id, subject_id := subj.id } ∧
    (b.start_subject freshRecordId now).working_mode.sessionId = some freshRecordId ∧
    (b.start_subject freshRecordId now).working_mode.prevTick = some now := by
  obtain ⟨k1, hk1, hf1, hm1⟩ := get_current_mut_of_get_current _ _ hp
  obtain ⟨k2, hk2, hf2, hm2⟩ := get_current_mut_of_get_current _ _ hsp
  obtain ⟨k3, hk3, hf3, hm3⟩ := get_current_mut_of_get_current _ _ hs
  simp only [Backend.start_subject, hm1, hm2, hm3]
  have hP : (if b.last_session_subject_id ≠ subj.id then
      { b with current_session_duration := 0 } else b).projects = b.projects := by
    split <;> rfl
  have hT : (if b.last_session_subject_id ≠ subj.id then
      { b with current_session_duration := 0 } else b).todos = b.todos := by
    split <;> rfl
  have hH : (if b.last_session_subject_id ≠ subj.id then
      { b with current_session_duration := 0 } else b).history = b.history := by
    split <;> rfl
  refine ⟨hP, hT, ?_, ?_, rfl, rfl⟩
  · intro id r hfind
    simp only [History.add_record, hH]
    by_cases hidf : id = freshRecordId
    · subst hidf
      rw [hfresh] at hfind
      cases hfind
    · rw [findKV_insertKV_ne _ _ _ _ hidf]
      exact hfind
  · simp only [History.add_record, hH]
    exact findKV_insertKV_self _ _ _

/-- C10 witness: restarting on the example in-progress state adds only the
fresh zero-duration record and leaves the tree alone. -/
theorem start_subject_frame_witness :
    (bInProgEx.start_subject 100 dt1).projects = bInProgEx.projects ∧
    findKV 100 (bInProgEx.start_subject 100 dt1).history.records =
      some { id := 100, start_date := dt1, end_date := dt1,
             project_id := 1, subject_id := 3 } := by
  have h := start_subject_frame bInProgEx 100 dt1
    { subject_path := (1, 2, 3), session_id := 50, previous_tick := dt0 }
    projEx subPEx subjEx rfl rfl rfl rfl (by rfl)
  exact ⟨h.1, h.2.2.2.1⟩

/-- C5: every structural mutation (`add_project`, `add_sub_project`,
`add_subject`, `add_todo_project`, `add_todo_sub_project`, `add_todo_subject`,
toggle-done) leaves the dirty flag set, and the next `update_time` — in any
working mode and for any `now`, i.e. not gated by the 10-second threshold —
clears the flag and writes the persisted projection of the (accrued) mutated
state to the file. -/
theorem mutation_dirty_tick_flush (b : Backend) (w : World) (now : DT)
    (freshId : Nat) (nm : String) (cd : DT) (col : Nat × Nat × Nat)
    (p3 : Nat × Nat × Nat) (subj : Subject) (tsubj : TodoSubject)
    (hchain : b.get_current_subject = some subj)
    (htchain : b.get_current_todo_subject = some tsubj)
    (hdirty : w.backend.dirty = true) :
    (b.add_project freshId nm cd col).dirty = true ∧
    (b.add_sub_project freshId nm cd col).dirty = true ∧
    (b.add_subject freshId nm cd).dirty = true ∧
    (b.add_todo_project freshId nm cd col).dirty = true ∧
    (b.add_todo_sub_project freshId nm cd col).dirty = true ∧
    (b.add_todo_subject freshId nm cd).dirty = true ∧
    (b.toggle_todo_subject p3).dirty = true ∧
    (w.update_time now).backend.dirty = false ∧
    (w.update_time now).file = some (w.backend.accrue now).persisted := by
  obtain ⟨project, sub_project, hp, hsp, hs⟩ := chain_of_get_current_subject b subj hchain
  obtain ⟨tproject, tsub_project, htp, htsp, hts⟩ :=
    chain_of_get_current_todo_subject b tsubj htchain
  obtain ⟨k1, hk1, hf1, hm1⟩ := get_current_mut_of_get_current _ _ hp
  obtain ⟨k2, hk2, hf2, hm2⟩ := get_current_mut_of_get_current _ _ hsp
  obtain ⟨tk1, htk1, htf1, htm1⟩ := get_current_mut_of_get_current _ _ htp
  obtain ⟨tk2, htk2, htf2, htm2⟩ := get_current_mut_of_get_current _ _ htsp
  refine ⟨rfl, ?_, ?_, rfl, ?_, ?_, rfl, (tick_flushes_dirty w now hdirty).1,
    (tick_flushes_dirty w now hdirty).2⟩
  · simp only [Backend.add_sub_project, hm1]
    rfl
  · simp only [Backend.add_subject, hm1, hm2]
    rfl
  · simp only [Backend.add_todo_sub_project, htm1]
    rfl
  · simp only [Backend.add_todo_subject, htm1, htm2]
    rfl

/-- C5 witness: adding a project to the example state marks it dirty, and the
very next tick (30 seconds in, mode `Idle`, under the 10-second threshold's
reach only via the dirty flag) clears the flag and persists the state. -/
theorem mutation_dirty_tick_flush_witness :
    (bEx.add_project 40 "p" dt0 (0, 0, 0)).dirty = true ∧
    (wEx.update_time dt1).backend.dirty = false ∧
    (wEx.update_time dt1).file = some (wEx.backend.accrue dt1).persisted := by
  have h := mutation_dirty_tick_flush bEx wEx dt1 40 "p" dt0 (0, 0, 0) (4, 5, 6)
    subjEx tsubjEx (by rfl) (by rfl) (by rfl)
  exact ⟨h.1, h.2.2.2.2.2.2.2.1, h.2.2.2.2.2.2.2.2⟩

/-- C2 counterexample: the record 2024-01-01 23:50 → 2024-01-02 00:10 (split by
the code, 1200 seconds long) yields halves of 599 and 600 seconds: the clamp
of the first half to 23:59:59 drops the second before midnight, so the halves
do NOT sum to the original duration. -/
theorem day_split_counterexample :
    rWit.start_date.day ≠ rWit.end_date.day ∧
    (firstHalf rWit).get_duration = 599 ∧
    (secondHalf rWit).get_duration = 600 ∧
    rWit.get_duration = 1200 ∧
    (firstHalf rWit).get_duration + (secondHalf rWit).get_duration ≠
      rWit.get_duration := by
  decide

/-- C2 (amended): for a record the code splits (different day-of-month) whose
end date is the calendar day immediately after its start date, neither half
has a negative duration and the two halves' durations sum to the original
duration minus one second (the 23:59:59 → midnight gap). -/
theorem day_split_conservation (r : HistoryRecord)
    (hs : r.start_date.sod < 86400) (he : r.end_date.sod < 86400)
    (_hsplit : r.start_date.day ≠ r.end_date.day)
    (hone : r.end_date.dayIndex = r.start_date.dayIndex + 1) :
    (firstHalf r).get_duration + (secondHalf r).get_duration + 1 = r.get_duration ∧
    0 ≤ (firstHalf r).get_duration ∧ 0 ≤ (secondHalf r).get_duration := by
  simp only [DT.dayIndex] at hone
  refine ⟨?_, ?_, ?_⟩
  all_goals simp only [firstHalf, secondHalf, HistoryRecord.get_duration, DT.toSecs,
    DT.dayIndex, withYmdAndHms]
  all_goals omega

/-- C2 witness: the amended conservation law on the 23:50 → 00:10 record. -/
theorem day_split_conservation_witness :
    (firstHalf rWit).get_duration + (secondHalf rWit).get_duration + 1 =
      rWit.get_duration :=
  (day_split_conservation rWit (by decide) (by decide) (by decide) (by decide)).1

/- Machinery for the bucket characterization of `get_ordered_records`. -/

theorem modifyAt_length {α : Type} (l : List α) (i : Nat) (f : α → α) :
    (modifyAt l i f).length = l.length := by
  induction l generalizing i with
  | nil => rfl
  | cons x xs ih =>
    cases i with
    | zero => rfl
    | succ n => simp [modifyAt, ih]

theorem modifyAt_getElem? {α : Type} (l : List α) (i j : Nat) (f : α → α) :
    (modifyAt l i f)[j]? = if j = i then (l[j]?).map f else l[j]? := by
  induction l generalizing i j with
  | nil => simp [modifyAt]
  | cons x xs ih =>
    cases i with
    | zero =>
      cases j with
      | zero => simp [modifyAt]
      | succ m => simp [modifyAt]
    | succ n =>
      cases j with
      | zero => simp [modifyAt]
      | succ m => simpa [modifyAt] using ih n m

theorem bucketStep_length (lo : DT) (res : List (List HistoryRecord))
    (r : HistoryRecord) : (bucketStep lo res r).length = res.length := by
  simp only [bucketStep]
  by_cases hd : r.start_date.day ≠ r.end_date.day
  · rw [if_pos hd]
    by_cases hb : bucketIndex lo r + 1 <
        (modifyAt res (bucketIndex lo r) (fun v => v ++ [firstHalf r])).length
    · rw [if_pos hb, modifyAt_length, modifyAt_length]
    · rw [if_neg hb, modifyAt_length]
  · rw [if_neg hd, modifyAt_length]

theorem bucketStep_getElem? (lo : DT) (res : List (List HistoryRecord))
    (r : HistoryRecord) (i : Nat) :
    (bucketStep lo res r)[i]? =
      (res[i]?).map (fun v => v ++ pieceAt lo res.length i r) := by
  simp only [bucketStep, pieceAt, modifyAt_length]
  by_cases hd : r.start_date.day ≠ r.end_date.day
  · rw [if_pos hd, if_pos hd]
    by_cases hb : bucketIndex lo r + 1 < res.length
    · rw [if_pos hb, modifyAt_getElem?, modifyAt_getElem?]
      by_cases hi1 : i = bucketIndex lo r + 1
      · rw [if_pos hi1, if_neg (by omega), if_neg (by omega),
          if_pos ⟨hd, hi1.symm, hb⟩]
        cases res[i]? <;> simp
      · rw [if_neg hi1]
        by_cases hi0 : i = bucketIndex lo r
        · rw [if_pos hi0, if_pos hi0.symm,
            if_neg (by rintro ⟨-, h2, -⟩; omega)]
          cases res[i]? <;> simp
        · rw [if_neg hi0, if_neg (fun hc => hi0 hc.symm),
            if_neg (by rintro ⟨-, h2, -⟩; omega)]
          cases res[i]? <;> simp
    · rw [if_neg hb, modifyAt_getElem?]
      by_cases hi0 : i = bucketIndex lo r
      · rw [if_pos hi0, if_pos hi0.symm, if_neg (by rintro ⟨-, -, h3⟩; omega)]
        cases res[i]? <;> simp
      · rw [if_neg hi0, if_neg (fun hc => hi0 hc.symm),
          if_neg (by rintro ⟨-, -, h3⟩; omega)]
        cases res[i]? <;> simp
  · rw [if_neg hd, if_neg hd, modifyAt_getElem?]
    by_cases hi0 : i = bucketIndex lo r
    · rw [if_pos hi0, if_pos hi0.symm, if_neg (by rintro ⟨h1, -, -⟩; exact hd h1)]
      cases res[i]? <;> simp
    · rw [if_neg hi0, if_neg (fun hc => hi0 hc.symm),
        if_neg (by rintro ⟨h1, -, -⟩; exact hd h1)]
      cases res[i]? <;> simp

theorem foldl_bucketStep_length (lo : DT) (l : List HistoryRecord)
    (res : List (List HistoryRecord)) :
    (l.foldl (bucketStep lo) res).length = res.length := by
  induction l generalizing res with
  | nil => rfl
  | cons r rest ih => simp [List.foldl_cons, ih, bucketStep_length]

theorem foldl_bucketStep_getElem? (lo : DT) (l : List HistoryRecord)
    (res : List (List HistoryRecord)) (i : Nat) :
    (l.foldl (bucketStep lo) res)[i]? =
      (res[i]?).map (fun v => v ++ l.flatMap (pieceAt lo res.length i)) := by
  induction l generalizing res with
  | nil => cases hres : res[i]? <;> simp [hres]
  | cons r rest ih =>
    rw [List.foldl_cons, ih, bucketStep_length, bucketStep_getElem?]
    cases hres : res[i]? <;> simp [hres, List.append_assoc]

theorem get_ordered_records_length (h : History) (lo hi : DT) :
    (h.get_ordered_records lo hi).length =
      (numDaysI (hi.toSecs - lo.toSecs) + 1).toNat := by
  unfold History.get_ordered_records
  rw [foldl_bucketStep_length, List.length_replicate]

theorem get_ordered_records_getElem? (h : History) (lo hi : DT) (i : Nat) :
    (h.get_ordered_records lo hi)[i]? =
      if i < (numDaysI (hi.toSecs - lo.toSecs) + 1).toNat then
        some ((List.insertionSort recLE
            ((h.records.map Prod.snd).filter (inRange lo hi))).flatMap
          (pieceAt lo (numDaysI (hi.toSecs - lo.toSecs) + 1).toNat i))
      else none := by
  unfold History.get_ordered_records
  rw [foldl_bucketStep_getElem?, List.length_replicate, List.getElem?_replicate]
  by_cases hlt : i < (numDaysI (hi.toSecs - lo.toSecs) + 1).toNat
  · rw [if_pos hlt, if_pos hlt]
    simp
  · rw [if_neg hlt, if_neg hlt]
    rfl

theorem bucketIndex_eq_iff (lo : DT) (r : HistoryRecord) (i : Nat)
    (hge : lo.toSecs ≤ r.start_date.toSecs) :
    bucketIndex lo r = i ↔
      lo.toSecs + 86400 * (i : Int) ≤ r.start_date.toSecs ∧
      r.start_date.toSecs < lo.toSecs + 86400 * ((i : Int) + 1) := by
  unfold bucketIndex numDaysI
  rw [if_pos (by omega)]
  omega

theorem secondHalf_toSecs (lo : DT) (r : HistoryRecord) (hlo : lo.sod = 0)
    (hsod : r.start_date.sod < 86400)
    (hone : r.end_date.dayIndex = r.start_date.dayIndex + 1)
    (hge : lo.toSecs ≤ r.start_date.toSecs) :
    (secondHalf r).start_date.toSecs =
      lo.toSecs + 86400 * ((bucketIndex lo r : Int) + 1) := by
  obtain ⟨hl, hu⟩ := (bucketIndex_eq_iff lo r (bucketIndex lo r) hge).mp rfl
  simp only [secondHalf, DT.toSecs, DT.dayIndex, withYmdAndHms] at hl hu hone ⊢
  omega

theorem pieceAt_cases (lo : DT) (n i : Nat) (r x : HistoryRecord)
    (hx : x ∈ pieceAt lo n i r) :
    (bucketIndex lo r = i ∧ x.start_date = r.start_date) ∨
    (r.start_date.day ≠ r.end_date.day ∧ bucketIndex lo r + 1 = i ∧
      x = secondHalf r) := by
  unfold pieceAt at hx
  rw [List.mem_append] at hx
  cases hx with
  | inl hx1 =>
    by_cases hbi : bucketIndex lo r = i
    · rw [if_pos hbi] at hx1
      by_cases hd : r.start_date.day ≠ r.end_date.day
      · rw [if_pos hd, List.mem_singleton] at hx1
        subst hx1
        exact Or.inl ⟨hbi, rfl⟩
      · rw [if_neg hd, List.mem_singleton] at hx1
        subst hx1
        exact Or.inl ⟨hbi, rfl⟩
    · rw [if_neg hbi] at hx1
      cases hx1
  | inr hx2 =>
    by_cases hc : r.start_date.day ≠ r.end_date.day ∧ bucketIndex lo r + 1 = i ∧
        bucketIndex lo r + 1 < n
    · rw [if_pos hc, List.mem_singleton] at hx2
      subst hx2
      exact Or.inr ⟨hc.1, hc.2.1, rfl⟩
    · rw [if_neg hc] at hx2
      cases hx2

theorem pieceAt_pairwise (lo : DT) (n i : Nat) (r : HistoryRecord) :
    List.Pairwise recLE (pieceAt lo n i r) := by
  unfold pieceAt
  by_cases hbi : bucketIndex lo r = i
  · rw [if_pos hbi]
    by_cases hc : r.start_date.day ≠ r.end_date.day ∧ bucketIndex lo r + 1 = i ∧
        bucketIndex lo r + 1 < n
    · exact absurd (hbi ▸ hc.2.1) (by omega)
    · rw [if_neg hc]
      split <;> simp
  · rw [if_neg hbi]
    split <;> simp

theorem piece_key_mono (lo : DT) (hlo : lo.sod = 0) (n i : Nat)
    (r r' x y : HistoryRecord)
    (hwf : WellFormedRecord r) (hwf' : WellFormedRecord r')
    (hge : lo.toSecs ≤ r.start_date.toSecs)
    (hge' : lo.toSecs ≤ r'.start_date.toSecs)
    (hrr' : r.start_date.toSecs ≤ r'.start_date.toSecs)
    (hx : x ∈ pieceAt lo n i r) (hy : y ∈ pieceAt lo n i r') :
    recLE x y := by
  obtain ⟨hs, he, hday⟩ := hwf
  obtain ⟨hs', he', hday'⟩ := hwf'
  unfold recLE
  rcases pieceAt_cases lo n i r x hx with ⟨hbi, hxs⟩ | ⟨hd, hbi, hxe⟩
  · rcases pieceAt_cases lo n i r' y hy with ⟨hbi', hys⟩ | ⟨hd', hbi', hye⟩
    · rw [hxs, hys]
      exact hrr'
    · have hone' : r'.end_date.dayIndex = r'.start_date.dayIndex + 1 := by
        rcases hday' with ⟨hsame, -⟩ | ⟨-, h1⟩
        · exact absurd hsame hd'
        · exact h1
      have hkey := secondHalf_toSecs lo r' hlo hs' hone' hge'
      obtain ⟨hl, hu⟩ := (bucketIndex_eq_iff lo r (bucketIndex lo r) hge).mp rfl
      obtain ⟨hl', hu'⟩ := (bucketIndex_eq_iff lo r' (bucketIndex lo r') hge').mp rfl
      rw [hxs, hye, hkey]
      omega
  · have hone : r.end_date.dayIndex = r.start_date.dayIndex + 1 := by
      rcases hday with ⟨hsame, -⟩ | ⟨-, h1⟩
      · exact absurd hsame hd
      · exact h1
    have hkey := secondHalf_toSecs lo r hlo hs hone hge
    rcases pieceAt_cases lo n i r' y hy with ⟨hbi', hys⟩ | ⟨hd', hbi', hye⟩
    · obtain ⟨hl', hu'⟩ := (bucketIndex_eq_iff lo r' (bucketIndex lo r') hge').mp rfl
      rw [hxe, hys, hkey]
      omega
    · have hone' : r'.end_date.dayIndex = r'.start_date.dayIndex + 1 := by
        rcases hday' with ⟨hsame, -⟩ | ⟨-, h1⟩
        · exact absurd hsame hd'
        · exact h1
      have hkey' := secondHalf_toSecs lo r' hlo hs' hone' hge'
      rw [hxe, hye, hkey, hkey']
      omega

/-- C3 counterexample.  With the range 2024-01-01 12:00 → 2024-01-02 06:00
(two calendar days) the code produces a single bucket, so the bucket count is
not the inclusive calendar-day span.  With the range 2024-01-01 12:00 →
2024-01-03 12:00, two records starting on the same calendar day (Jan 2, 11:00
and 13:00) land in different buckets — so records are not assigned by the
calendar day of their `start_date` — and bucket 1 holds the midnight-clamped
second half of a Jan 2 → Jan 3 record (start Jan 3 00:00) before the 13:00
record, so the bucket is not sorted ascending by `start_date`. -/
theorem get_ordered_records_counterexample :
    (History.new.get_ordered_records loA hiA).length = 1 ∧
    hiA.dayIndex - loA.dayIndex + 1 = 2 ∧ (1 : Nat) ≠ 2 ∧
    (hC3.get_ordered_records loA hiB)[0]? = some [firstHalf rSpan, rMorning] ∧
    (hC3.get_ordered_records loA hiB)[1]? = some [secondHalf rSpan, rAfternoon] ∧
    rMorning.start_date.day = rAfternoon.start_date.day ∧
    rMorning.start_date.month = rAfternoon.start_date.month ∧
    rMorning.start_date.year = rAfternoon.start_date.year ∧
    ¬ recLE (secondHalf rSpan) rAfternoon := by
  decide

/-- C3 (amended): `get_ordered_records` produces
`num_days(range.1 - range.0) + 1` buckets — the floor of the elapsed time in
whole days, plus one — and distributes each in-range record into the bucket
`num_days(start_date - range.0)` (both halves of a split record as described
by `pieceAt`: first half there, second half into the following bucket, dropped
when that index is out of bounds).  When the range start is midnight-aligned
and records span at most one midnight, this coincides with calendar-day
bucketing: the bucket count is the inclusive calendar-day span, each record's
bucket index is the calendar-day offset of its `start_date`, a bucket's
content is exactly the pieces assigned to it, and every bucket is sorted
ascending by `start_date`. -/
theorem get_ordered_records_day_buckets (h : History) (lo hi : DT)
    (hlo : lo.sod = 0) (hhi : hi.sod < 86400) (hlohi : lo.toSecs ≤ hi.toSecs)
    (hwf : ∀ p ∈ h.records, WellFormedRecord p.2) :
    (h.get_ordered_records lo hi).length = (hi.dayIndex - lo.dayIndex + 1).toNat ∧
    (∀ r : HistoryRecord, inRange lo hi r = true → r.start_date.sod < 86400 →
        (bucketIndex lo r : Int) = r.start_date.dayIndex - lo.dayIndex) ∧
    (∀ i bucket, (h.get_ordered_records lo hi)[i]? = some bucket →
        (∀ x, x ∈ bucket ↔ ∃ r, r ∈ h.records.map Prod.snd ∧
            inRange lo hi r = true ∧
            x ∈ pieceAt lo (h.get_ordered_records lo hi).length i r) ∧
        List.Pairwise recLE bucket) := by
  have hnum : numDaysI (hi.toSecs - lo.toSecs) + 1 = hi.dayIndex - lo.dayIndex + 1 := by
    unfold numDaysI
    rw [if_pos (by omega)]
    simp only [DT.toSecs, DT.dayIndex] at hlohi ⊢
    omega
  have hlen := get_ordered_records_length h lo hi
  refine ⟨by rw [hlen, hnum], ?_, ?_⟩
  · intro r hin hsod
    rw [inRange, Bool.and_eq_true, decide_eq_true_eq, decide_eq_true_eq] at hin
    obtain ⟨h1, h2⟩ := hin
    obtain ⟨hl, hu⟩ := (bucketIndex_eq_iff lo r (bucketIndex lo r) h1).mp rfl
    simp only [DT.toSecs, DT.dayIndex] at hl hu ⊢
    omega
  · intro i bucket hbk
    rw [get_ordered_records_getElem?] at hbk
    split at hbk
    case isFalse hlt => cases hbk
    case isTrue hlt =>
      obtain rfl : bucket = _ := (Option.some.inj hbk).symm
      constructor
      · intro x
        rw [hlen, List.mem_flatMap]
        constructor
        · rintro ⟨r, hr, hxr⟩
          rw [(List.perm_insertionSort recLE _).mem_iff, List.mem_filter] at hr
          exact ⟨r, hr.1, hr.2, hxr⟩
        · rintro ⟨r, hr1, hr2, hxr⟩
          refine ⟨r, ?_, hxr⟩
          rw [(List.perm_insertionSort recLE _).mem_iff, List.mem_filter]
          exact ⟨hr1, hr2⟩
      · rw [List.pairwise_flatMap]
        have hmem : ∀ r : HistoryRecord,
            r ∈ List.insertionSort recLE
              ((h.records.map Prod.snd).filter (inRange lo hi)) →
            WellFormedRecord r ∧ lo.toSecs ≤ r.start_date.toSecs := by
          intro r hr
          rw [(List.perm_insertionSort recLE _).mem_iff, List.mem_filter] at hr
          obtain ⟨hr1, hr2⟩ := hr
          rw [List.mem_map] at hr1
          obtain ⟨p, hp, rfl⟩ := hr1
          rw [inRange, Bool.and_eq_true, decide_eq_true_eq, decide_eq_true_eq] at hr2
          exact ⟨hwf p hp, hr2.1⟩
        refine ⟨fun a _ => pieceAt_pairwise lo _ i a, ?_⟩
        have hsorted : List.Pairwise recLE
            (List.insertionSort recLE
              ((h.records.map Prod.snd).filter (inRange lo hi))) :=
          List.sorted_insertionSort recLE _
        refine hsorted.imp_of_mem ?_
        intro r r' hr hr' hrel x hx y hy
        obtain ⟨hwfr, hger⟩ := hmem r hr
        obtain ⟨hwfr', hger'⟩ := hmem r' hr'
        exact piece_key_mono lo hlo _ i r r' x y hwfr hwfr' hger hger' hrel hx hy

/-- C3 witness: on a midnight-aligned one-and-a-bit-day range holding a single
record that crosses one midnight, the amended bucket law yields the inclusive
calendar span of two buckets. -/
theorem get_ordered_records_day_buckets_witness :
    (hWit.get_ordered_records dt0 hiW).length = 2 := by
  have h := get_ordered_records_day_buckets hWit dt0 hiW (by rfl) (by decide)
    (by decide) (by decide)
  rw [h.1]
  decide

end RuhTime
